import Mathlib

/-!
Verification of the Finance_App transaction categorizer (src/main.py).

The Python program keeps a rule store `st.session_state.categories`
(a dict from category name to a list of keyword strings, in insertion
order), assigns a category to each transaction row by exact equality of
the normalized (lowercased, stripped) details text against normalized
keywords, learns new keywords from manual recategorizations, and
aggregates amounts per category.

The embedding below models:
  * Python `str.lower()` / `str.strip()` as `pyLower` / `pyStrip`
    (ASCII lowering, whitespace stripping on the character list);
  * the dict as an association list in insertion order (`Store`);
  * dict item access as `lookupStore` (a `none` result corresponds to a
    raised `KeyError`);
  * `categorize_transaction` (main.py lines 29-47) as a fold over the
    store acting on a list of transaction rows;
  * `add_keywprd_to_category` (lines 64-73) returning
    `Except PyError (Store × Bool)` — `Except.error` is an uncaught
    Python exception propagating out of the function;
  * the module-level category load (lines 13-22), the add-category
    button (lines 99-104), the save-changes handler (lines 123-132)
    and the expense summary (lines 134-138).

Amounts are modelled as rationals (the program stores decimal amounts
as floats; the claims under study are about grouping, summing and
ordering, not float rounding).
-/

namespace FinanceApp

/-- Python `str.lower()` restricted to ASCII: lower every character. -/
def pyLower (s : String) : String := ⟨s.data.map Char.toLower⟩

/-- Strip leading and trailing whitespace from a character list
(the list-level content of Python `str.strip()`). -/
def stripList (l : List Char) : List Char :=
  ((l.dropWhile Char.isWhitespace).reverse.dropWhile Char.isWhitespace).reverse

/-- Python `str.strip()`: remove leading and trailing whitespace. -/
def pyStrip (s : String) : String := ⟨stripList s.data⟩

/-- The normalization the matcher applies to both keywords and details:
`x.lower().strip()` (main.py lines 37 and 42). -/
def pyNormalize (s : String) : String := pyStrip (pyLower s)

/-- One row of the transactions dataframe after loading: columns
`Date`, `Details`, `Amount`, `Debit/Credit` and the added `Category`. -/
structure Transaction where
  date : String
  details : String
  amount : ℚ
  debitCredit : String
  category : String
deriving DecidableEq, Repr

/-- The rule store `st.session_state.categories`: a Python dict from
category name to keyword list, kept in insertion order. -/
abbrev Store := List (String × List String)

/-- Dict item read `categories[c]`: first entry with the given key;
`none` corresponds to a raised `KeyError`. -/
def lookupStore : Store → String → Option (List String)
  | [], _ => none
  | p :: rest, c => if p.1 = c then some p.2 else lookupStore rest c

/-- Dict item write `categories[c] = kws`: replace the (first) entry
with the given key, leaving the rest of the dict unchanged. -/
def updateStore : Store → String → List String → Store
  | [], _, _ => []
  | p :: rest, c, kws =>
    if p.1 = c then (c, kws) :: rest else p :: updateStore rest c kws

/-- A Python exception escaping the modelled code uncaught. -/
inductive JsonError
  | decodeError (msg : String)
deriving DecidableEq, Repr

/-- Uncaught Python exceptions of the modelled fragments: a dict
`KeyError` and a `json.JSONDecodeError`. -/
inductive PyError
  | keyError (key : String)
  | jsonDecodeError (e : JsonError)
deriving DecidableEq, Repr

/-- The function `add_keywprd_to_category` (main.py lines 64-73):
strip the keyword; if it is falsy (empty) the `and` short-circuits and
the function returns `False` without touching the dict; otherwise the
dict access `categories[category]` raises `KeyError` when the category
is absent; otherwise the stripped keyword is appended unless already
present (exact string comparison, no lowercasing). The returned store
is the session store after the call; `save_categories()` persists it. -/
def add_keywprd_to_category (s : Store) (category keyword : String) :
    Except PyError (Store × Bool) :=
  let kw := pyStrip keyword
  if kw = "" then .ok (s, false)
  else
    match lookupStore s category with
    | none => .error (.keyError category)
    | some kws =>
      if kw ∈ kws then .ok (s, false)
      else .ok (updateStore s category (kws ++ [kw]), true)

/-- The per-row body of the save-changes handler (main.py lines
124-132): skip the row when the edited category equals the recorded
one; otherwise record the new category on the row and call
`add_keywprd_to_category` with the row's details. Returns the session
store and the category recorded on the row. -/
def save_row (s : Store) (origCat newCat details : String) :
    Except PyError (Store × String) :=
  if newCat = origCat then .ok (s, origCat)
  else
    match add_keywprd_to_category s newCat details with
    | .ok (s', _) => .ok (s', newCat)
    | .error e => .error e

/-- The add-category button handler (main.py lines 99-104): a falsy
(empty) name is ignored, an existing name is ignored, otherwise a new
entry with an empty keyword list is appended to the dict. -/
def addCategoryOp (s : Store) (name : String) : Store :=
  if name = "" ∨ name ∈ s.map Prod.fst then s else s ++ [(name, [])]

/-- The session store after a call to `add_keywprd_to_category`: on an
uncaught `KeyError` the append never ran, so the store is unchanged. -/
def storeAfterAdd (s : Store) (category keyword : String) : Store :=
  match add_keywprd_to_category s category keyword with
  | .ok (s', _) => s'
  | .error _ => s

/-- The default store set up at lines 13-17. -/
def defaultStore : Store := [("General", [])]

/-- Outcome of the module-level code: the session store it leaves
behind and the uncaught exception, if any, that aborted the run. -/
structure LoadResult where
  store : Store
  raised : Option PyError
deriving DecidableEq, Repr

/-- The module-level category load (main.py lines 13-22) on a fresh
session: the store is initialized to `defaultStore`; when the rule
file exists its parsed contents overwrite the store wholesale, and a
parse failure in `json.load` is an uncaught exception (there is no
`try`), leaving the store at the default. The file system read and
`json.load` are abstracted into one argument: `none` means the file
does not exist, `some (.ok s)` a file parsing to `s`, `some (.error e)`
a malformed file. -/
def moduleLoad (file : Option (Except JsonError Store)) : LoadResult :=
  match file with
  | none => { store := defaultStore, raised := none }
  | some (.ok s) => { store := s, raised := none }
  | some (.error e) =>
      { store := defaultStore, raised := some (.jsonDecodeError e) }

/-- One iteration of the outer loop of `categorize_transaction`
(main.py lines 33-46) acting on the whole row list: skip `"General"`
and categories with an empty (falsy) keyword list; otherwise overwrite
the category of every row whose normalized details equal one of the
normalized keywords. -/
def categorizeStep (rows : List Transaction) (p : String × List String) :
    List Transaction :=
  if p.1 = "General" ∨ p.2 = [] then rows
  else
    rows.map fun r =>
      if pyNormalize r.details ∈ p.2.map pyNormalize then
        { r with category := p.1 }
      else r

/-- The function `categorize_transaction` (main.py lines 29-47): reset
every row's category to `"General"`, then run `categorizeStep` for
each store entry in dict (insertion) order. -/
def categorize_transaction (s : Store) (df : List Transaction) :
    List Transaction :=
  s.foldl categorizeStep (df.map fun r => { r with category := "General" })

/-- The per-row trace of one `categorizeStep` on the category value of
a row with the given details. -/
def stepCat (details : String) (acc : String) (p : String × List String) :
    String :=
  if p.1 = "General" ∨ p.2 = [] then acc
  else if pyNormalize details ∈ p.2.map pyNormalize then p.1 else acc

/-- The category `categorize_transaction` assigns to a row with the
given details under the given store. -/
def assignedCategory (s : Store) (details : String) : String :=
  s.foldl (stepCat details) "General"

/-- Code-point comparison of character lists (Python string `<`,
which pandas uses to sort group keys). -/
def strLtB : List Char → List Char → Bool
  | [], [] => false
  | [], _ :: _ => true
  | _ :: _, [] => false
  | a :: as, b :: bs =>
    if a.toNat < b.toNat then true
    else if b.toNat < a.toNat then false
    else strLtB as bs

/-- Python string `<=` on the character lists. -/
def strLeB (a b : String) : Bool := !(strLtB b.data a.data)

/-- The expense summary (main.py lines 134-138):
`groupby("Category")["Amount"].sum().reset_index()` — the distinct
category values, sorted ascending as pandas does, each with the sum of
the amounts of its rows — followed by
`sort_values(by="Amount", ascending=False)`. -/
def category_totals (rows : List Transaction) : List (String × ℚ) :=
  (((rows.map Transaction.category).dedup.insertionSort
      fun a b => strLeB a b = true).map
    fun c =>
      (c, ((rows.filter fun r => r.category = c).map
        Transaction.amount).sum)).insertionSort
    fun a b => b.2 ≤ a.2

/-- Rule-store states reachable in the app: the default store of a
fresh session, then any interleaving of the add-category button and of
keyword learning from the save-changes handler (whose selectbox offers
every key of the store, `"General"` included). Loading the rule file
written by `save_categories` reproduces a previously reached store and
adds no new states. -/
inductive Reachable : Store → Prop
  | init : Reachable defaultStore
  | addCategory (s : Store) (name : String) :
      Reachable s → Reachable (addCategoryOp s name)
  | learn (s : Store) (cat details : String) :
      Reachable s → cat ∈ s.map Prod.fst →
      Reachable (storeAfterAdd s cat details)

/-! ### String normalization lemmas -/

/-- Lowering a character does not change whether it is whitespace. -/
lemma isWhitespace_toLower (c : Char) :
    (Char.toLower c).isWhitespace = c.isWhitespace := by
  show (if c.toNat ≥ 65 ∧ c.toNat ≤ 90 then Char.ofNat (c.toNat + 32)
      else c).isWhitespace = c.isWhitespace
  split
  case isTrue h =>
    obtain ⟨h65, h90⟩ := h
    have hc : c.isWhitespace = false := by
      have hs : c ≠ ' ' := by
        intro hc; rw [hc] at h65; exact absurd h65 (by decide)
      have ht : c ≠ '\t' := by
        intro hc; rw [hc] at h65; exact absurd h65 (by decide)
      have hr : c ≠ '\x0d' := by
        intro hc; rw [hc] at h65; exact absurd h65 (by decide)
      have hn : c ≠ '\n' := by
        intro hc; rw [hc] at h65; exact absurd h65 (by decide)
      simp [Char.isWhitespace, hs, ht, hr, hn]
    have hl : (Char.ofNat (c.toNat + 32)).isWhitespace = false := by
      generalize c.toNat = n at h65 h90
      interval_cases n <;> decide
    rw [hc, hl]
  case isFalse h => rfl

/-- Dropping is idempotent. -/
lemma dropWhile_dropWhile {α : Type} (p : α → Bool) (l : List α) :
    (l.dropWhile p).dropWhile p = l.dropWhile p := by
  induction l with
  | nil => rfl
  | cons a t ih =>
    by_cases h : p a = true
    · simp only [List.dropWhile_cons, h, if_true, ih]
    · simp only [List.dropWhile_cons, h]
      simp only [Bool.not_eq_true] at h
      simp [List.dropWhile_cons, h]

/-- The head surviving a drop fails the predicate. -/
lemma head_dropWhile {α : Type} (p : α → Bool) (l : List α) (a : α)
    (t : List α) (h : l.dropWhile p = a :: t) : p a = false := by
  induction l with
  | nil => simp at h
  | cons b u ih =>
    by_cases hb : p b = true
    · rw [List.dropWhile_cons, if_pos hb] at h
      exact ih h
    · rw [List.dropWhile_cons, if_neg hb] at h
      cases h
      simpa using hb

/-- A drop removes an initial segment. -/
lemma dropWhile_decomp {α : Type} (p : α → Bool) (l : List α) :
    ∃ u, u ++ l.dropWhile p = l := by
  induction l with
  | nil => exact ⟨[], rfl⟩
  | cons a t ih =>
    by_cases h : p a = true
    · obtain ⟨u, hu⟩ := ih
      exact ⟨a :: u, by simp [List.dropWhile_cons, h, hu]⟩
    · exact ⟨[], by simp [List.dropWhile_cons, h]⟩

/-- Dropping from a list whose head fails the predicate does nothing. -/
lemma dropWhile_of_head_false {α : Type} (p : α → Bool) (l : List α)
    (h : ∀ a t, l = a :: t → p a = false) : l.dropWhile p = l := by
  cases l with
  | nil => rfl
  | cons a t => rw [List.dropWhile_cons, if_neg (by simp [h a t rfl])]

/-- Stripping an already stripped character list does nothing. -/
lemma stripList_stripList (l : List Char) :
    stripList (stripList l) = stripList l := by
  set p := Char.isWhitespace with hp
  set u := l.dropWhile p with hu
  rcases hd : u.reverse.dropWhile p with _ | ⟨b, w⟩
  · have h1 : stripList l = [] := by
      rw [stripList, ← hu, hd, List.reverse_nil]
    rw [h1]; rfl
  · have hv : stripList l = (b :: w).reverse := by
      rw [stripList, ← hu, hd]
    -- `stripList l` is a nonempty prefix of `u`, so its head fails `p`.
    obtain ⟨z, hz⟩ := dropWhile_decomp p u.reverse
    rw [hd] at hz
    have hvu : stripList l ++ z.reverse = u := by
      have := congrArg List.reverse hz
      simpa [hv, List.reverse_append] using this
    have hdv : (stripList l).dropWhile p = stripList l := by
      apply dropWhile_of_head_false
      intro a t hat
      have hua : u = a :: (t ++ z.reverse) := by
        rw [← hvu, hat]; simp
      exact head_dropWhile p l a _ (hu.symm.trans hua)
    -- and its reverse is itself a dropped list, so dropping again does nothing
    have hdr : (stripList l).reverse.dropWhile p = (stripList l).reverse := by
      rw [hv, List.reverse_reverse, ← hd, dropWhile_dropWhile]
    rw [stripList, hdv, hdr, List.reverse_reverse]

/-- Lowering commutes with dropping whitespace. -/
lemma dropWhile_ws_map_toLower (l : List Char) :
    (l.map Char.toLower).dropWhile Char.isWhitespace
      = (l.dropWhile Char.isWhitespace).map Char.toLower := by
  rw [List.dropWhile_map]
  have hpf : (Char.isWhitespace ∘ Char.toLower) = Char.isWhitespace :=
    funext isWhitespace_toLower
  rw [hpf]

/-- Lowering commutes with stripping. -/
lemma stripList_map_toLower (l : List Char) :
    stripList (l.map Char.toLower) = (stripList l).map Char.toLower := by
  unfold stripList
  rw [dropWhile_ws_map_toLower, ← List.map_reverse, dropWhile_ws_map_toLower,
    ← List.map_reverse]

lemma data_pyStrip (s : String) : (pyStrip s).data = stripList s.data := rfl

lemma data_pyLower (s : String) : (pyLower s).data = s.data.map Char.toLower :=
  rfl

/-- Stripping is idempotent on strings. -/
lemma pyStrip_pyStrip (s : String) : pyStrip (pyStrip s) = pyStrip s :=
  congrArg String.mk (stripList_stripList s.data)

/-- Normalizing a stripped string gives the normalization of the
original string: `k.strip().lower().strip() = k.lower().strip()`. -/
lemma pyNormalize_pyStrip (s : String) :
    pyNormalize (pyStrip s) = pyNormalize s := by
  apply congrArg String.mk
  show stripList ((stripList s.data).map Char.toLower)
      = stripList (s.data.map Char.toLower)
  rw [← stripList_map_toLower, stripList_stripList, stripList_map_toLower]

/-! ### Characterizing the matcher -/

lemma category_set_self (r : Transaction) :
    ({ r with category := r.category } : Transaction) = r := by
  cases r; rfl

lemma category_set_set (r : Transaction) (a b : String) :
    ({ ({ r with category := a } : Transaction) with category := b }
      : Transaction) = { r with category := b } := by
  cases r; rfl

lemma map_category_self (rows : List Transaction) :
    (rows.map fun r => { r with category := r.category }) = rows := by
  induction rows with
  | nil => rfl
  | cons a t ih => simp [category_set_self, ih]

/-- The fold of `categorizeStep` acts independently on each row: it
maps every row to the same row with its category replaced by the
`stepCat` fold of its details. -/
lemma foldl_categorizeStep (s : Store) :
    ∀ rows : List Transaction,
      s.foldl categorizeStep rows
        = rows.map fun r =>
            { r with category := s.foldl (stepCat r.details) r.category } := by
  induction s with
  | nil => intro rows; simp [map_category_self]
  | cons p rest ih =>
    intro rows
    rw [List.foldl_cons, ih (categorizeStep rows p)]
    simp only [List.foldl_cons]
    by_cases hskip : p.1 = "General" ∨ p.2 = []
    · rw [categorizeStep, if_pos hskip]
      apply List.map_congr_left
      intro r _
      have h1 : stepCat r.details r.category p = r.category := by
        simp only [stepCat]; rw [if_pos hskip]
      rw [h1]
    · rw [categorizeStep, if_neg hskip, List.map_map]
      apply List.map_congr_left
      intro r _
      simp only [Function.comp_apply]
      by_cases hm : pyNormalize r.details ∈ p.2.map pyNormalize
      · have h1 : stepCat r.details r.category p = p.1 := by
          simp only [stepCat]; rw [if_neg hskip, if_pos hm]
        rw [if_pos hm, h1]
      · have h1 : stepCat r.details r.category p = r.category := by
          simp only [stepCat]; rw [if_neg hskip, if_neg hm]
        rw [if_neg hm, h1]

/-- `categorize_transaction` maps every row to itself with the
category replaced by `assignedCategory` of its details. -/
lemma categorize_eq_map (s : Store) (df : List Transaction) :
    categorize_transaction s df
      = df.map fun r => { r with category := assignedCategory s r.details } := by
  rw [categorize_transaction, foldl_categorizeStep, List.map_map]
  apply List.map_congr_left
  intro r _
  simp only [Function.comp_apply, category_set_set]
  rfl

lemma categorize_length (s : Store) (df : List Transaction) :
    (categorize_transaction s df).length = df.length := by
  rw [categorize_eq_map, List.length_map]

/-- A fold of `stepCat` over entries that are skipped or do not match
leaves the accumulator unchanged. -/
lemma foldl_stepCat_no_match (d : String) (l : Store) (acc : String)
    (h : ∀ p ∈ l, p.1 = "General" ∨ pyNormalize d ∉ p.2.map pyNormalize) :
    l.foldl (stepCat d) acc = acc := by
  induction l generalizing acc with
  | nil => rfl
  | cons p rest ih =>
    rw [List.foldl_cons]
    have hstep : stepCat d acc p = acc := by
      rcases h p (by simp) with hg | hnm
      · rw [stepCat, if_pos (Or.inl hg)]
      · by_cases hskip : p.1 = "General" ∨ p.2 = []
        · rw [stepCat, if_pos hskip]
        · rw [stepCat, if_neg hskip, if_neg hnm]
    rw [hstep]
    exact ih acc fun p hp => h p (by simp [hp])

/-- A matching entry sets the accumulator to its category name. -/
lemma stepCat_match (d : String) (acc : String) (p : String × List String)
    (hg : p.1 ≠ "General") (hm : pyNormalize d ∈ p.2.map pyNormalize) :
    stepCat d acc p = p.1 := by
  have hne : p.2 ≠ [] := by
    intro he; rw [he] at hm; simp at hm
  rw [stepCat, if_neg (by simp [hg, hne]), if_pos hm]

/-- When the entry `(c, k)` matches the details and nothing after it
matches, the assigned category is `c`, whatever comes before. -/
lemma assignedCategory_last_match (pre post : Store) (c : String)
    (k : List String) (d : String) (hc : c ≠ "General")
    (hm : pyNormalize d ∈ k.map pyNormalize)
    (hpost : ∀ p ∈ post, p.1 = "General" ∨ pyNormalize d ∉ p.2.map pyNormalize) :
    assignedCategory (pre ++ (c, k) :: post) d = c := by
  rw [assignedCategory, List.foldl_append, List.foldl_cons,
    stepCat_match d _ (c, k) hc hm]
  exact foldl_stepCat_no_match d post c hpost

/-- When no entry matches the details, the assigned category is the
default `"General"`. -/
lemma assignedCategory_no_match (s : Store) (d : String)
    (h : ∀ p ∈ s, p.1 = "General" ∨ pyNormalize d ∉ p.2.map pyNormalize) :
    assignedCategory s d = "General" :=
  foldl_stepCat_no_match d s "General" h

/-! ### Claim C1: later category overwrites an earlier match -/

/-- C1: when a transaction's normalized details equal a normalized
keyword of two different non-"General" categories of the store, and no
category iterated after the second one matches, `categorize_transaction`
assigns the category processed last in the store's insertion order —
the later category overwrites the earlier match. -/
theorem later_category_overwrites
    (pre mid post : Store) (cA cB : String) (kA kB : List String)
    (d : String) (df : List Transaction)
    (hA : cA ≠ "General") (hB : cB ≠ "General") (hAB : cA ≠ cB)
    (hmA : pyNormalize d ∈ kA.map pyNormalize)
    (hmB : pyNormalize d ∈ kB.map pyNormalize)
    (hpost : ∀ p ∈ post, p.1 = "General" ∨ pyNormalize d ∉ p.2.map pyNormalize) :
    ∀ r ∈ categorize_transaction
        (pre ++ (cA, kA) :: (mid ++ (cB, kB) :: post)) df,
      r.details = d → r.category = cB := by
  intro r hr hd
  rw [categorize_eq_map] at hr
  obtain ⟨r0, _, rfl⟩ := List.mem_map.mp hr
  dsimp only at hd ⊢
  rw [hd]
  have hsplit : pre ++ (cA, kA) :: (mid ++ (cB, kB) :: post)
      = (pre ++ (cA, kA) :: mid) ++ (cB, kB) :: post := by
    simp
  rw [hsplit]
  exact assignedCategory_last_match _ post cB kB d hB hmB hpost

/-- Witness for C1 at a concrete store and transaction: with both
"Food" and "Coffee" holding the keyword "starbucks" and a later
non-matching "Games" category, the later "Coffee" wins. -/
theorem later_category_overwrites_witness :
    pyNormalize "STARBUCKS " ∈ (["starbucks"].map pyNormalize) ∧
    ∀ r ∈ categorize_transaction
        ([("General", [])] ++ ("Food", ["starbucks"]) ::
          ([] ++ ("Coffee", ["starbucks"]) :: [("Games", ["steam"])]))
        [{ date := "01 Jan 2024", details := "STARBUCKS ", amount := 5,
           debitCredit := "Debit", category := "General" }],
      r.details = "STARBUCKS " → r.category = "Coffee" :=
  ⟨by decide,
    later_category_overwrites [("General", [])] [] [("Games", ["steam"])]
      "Food" "Coffee" ["starbucks"] ["starbucks"] "STARBUCKS " _
      (by decide) (by decide) (by decide) (by decide) (by decide)
      (by decide)⟩

/-! ### Claim C2: exact-equality matching with "General" fallback -/

/-- C2: the matcher tests exact equality of the normalized details
against the normalized keywords: a transaction whose normalized
details equal a keyword of a non-"General" category, with no match in
any later-iterated category, is assigned that category; and a
transaction matching no keyword of any category is assigned
"General". -/
theorem exact_equality_matching
    (pre post : Store) (c : String) (k : List String) (d : String)
    (df : List Transaction)
    (hc : c ≠ "General")
    (hm : pyNormalize d ∈ k.map pyNormalize)
    (hpost : ∀ p ∈ post, p.1 = "General" ∨ pyNormalize d ∉ p.2.map pyNormalize) :
    (∀ r ∈ categorize_transaction (pre ++ (c, k) :: post) df,
        r.details = d → r.category = c) ∧
    ∀ (s : Store) (df' : List Transaction) (d' : String),
      (∀ p ∈ s, p.1 = "General" ∨ pyNormalize d' ∉ p.2.map pyNormalize) →
      ∀ r ∈ categorize_transaction s df', r.details = d' →
        r.category = "General" := by
  constructor
  · intro r hr hd
    rw [categorize_eq_map] at hr
    obtain ⟨r0, _, rfl⟩ := List.mem_map.mp hr
    dsimp only at hd ⊢
    rw [hd]
    exact assignedCategory_last_match pre post c k d hc hm hpost
  · intro s df' d' hnone r hr hd
    rw [categorize_eq_map] at hr
    obtain ⟨r0, _, rfl⟩ := List.mem_map.mp hr
    dsimp only at hd ⊢
    rw [hd]
    exact assignedCategory_no_match s d' hnone

/-- Witness for C2 at a concrete store: "  Uber Eats " matches the
"Food" keyword "uber eats" exactly and is assigned "Food"; a details
string that is a strict superstring of every keyword matches nothing
and falls back to "General". -/
theorem exact_equality_matching_witness :
    (∀ r ∈ categorize_transaction
        ([("General", [])] ++ ("Food", ["uber eats"]) :: [])
        [{ date := "02 Jan 2024", details := "  Uber Eats ", amount := 3,
           debitCredit := "Debit", category := "General" }],
      r.details = "  Uber Eats " → r.category = "Food") ∧
    ∀ (s : Store) (df' : List Transaction) (d' : String),
      (∀ p ∈ s, p.1 = "General" ∨ pyNormalize d' ∉ p.2.map pyNormalize) →
      ∀ r ∈ categorize_transaction s df', r.details = d' →
        r.category = "General" :=
  exact_equality_matching [("General", [])] [] "Food" ["uber eats"]
    "  Uber Eats "
    [{ date := "02 Jan 2024", details := "  Uber Eats ", amount := 3,
       debitCredit := "Debit", category := "General" }]
    (by decide) (by decide) (by decide)

/-! ### Claim C10: the matcher only touches the Category column -/

/-- C10: `categorize_transaction` preserves the number and order of
rows and the `Date`, `Details`, `Amount` and `Debit/Credit` values of
every row; only the `Category` column changes. -/
theorem categorize_frame (s : Store) (df : List Transaction) :
    (categorize_transaction s df).length = df.length ∧
    ∀ i : Nat,
      ((categorize_transaction s df)[i]?).map Transaction.date
          = (df[i]?).map Transaction.date ∧
      ((categorize_transaction s df)[i]?).map Transaction.details
          = (df[i]?).map Transaction.details ∧
      ((categorize_transaction s df)[i]?).map Transaction.amount
          = (df[i]?).map Transaction.amount ∧
      ((categorize_transaction s df)[i]?).map Transaction.debitCredit
          = (df[i]?).map Transaction.debitCredit := by
  rw [categorize_eq_map]
  refine ⟨List.length_map _ _, fun i => ?_⟩
  rw [List.getElem?_map]
  cases df[i]? with
  | none => simp
  | some r => simp

/-! ### Claim C7: the expense summary -/

instance : IsTotal (String × ℚ) (fun a b => b.2 ≤ a.2) :=
  ⟨fun a b => le_total b.2 a.2⟩

instance : IsTrans (String × ℚ) (fun a b => b.2 ≤ a.2) :=
  ⟨fun _ _ _ hab hbc => le_trans hbc hab⟩

/-- C7: `category_totals` pairs each category appearing in the rows
with the sum of the amounts of its rows, contains nothing else, and is
sorted in descending order of total amount; on the spec's example
`{(Food,10),(Food,5),(Transport,20)}` it returns
`[("Transport",20),("Food",15)]`. -/
theorem summarize_groups_sums_sorts (rows : List Transaction) :
    (category_totals rows).Sorted (fun a b => b.2 ≤ a.2) ∧
    (∀ (c : String) (t : ℚ),
      (c, t) ∈ category_totals rows ↔
        c ∈ rows.map Transaction.category ∧
        t = ((rows.filter fun r => r.category = c).map
          Transaction.amount).sum) ∧
    category_totals
        [{ date := "d1", details := "a", amount := 10,
           debitCredit := "Debit", category := "Food" },
         { date := "d2", details := "b", amount := 5,
           debitCredit := "Debit", category := "Food" },
         { date := "d3", details := "c", amount := 20,
           debitCredit := "Debit", category := "Transport" }]
      = [("Transport", 20), ("Food", 15)] := by
  refine ⟨List.sorted_insertionSort _ _, fun c t => ?_, ?_⟩
  · rw [category_totals, (List.perm_insertionSort _ _).mem_iff]
    constructor
    · intro h
      obtain ⟨c', hc', heq⟩ := List.mem_map.mp h
      rw [Prod.ext_iff] at heq
      obtain ⟨h1, h2⟩ := heq
      dsimp only at h1 h2
      subst h1
      have hcs : c' ∈ (rows.map Transaction.category).dedup :=
        (List.perm_insertionSort _ _).mem_iff.mp hc'
      exact ⟨List.mem_dedup.mp hcs, h2.symm⟩
    · rintro ⟨hc, ht⟩
      apply List.mem_map.mpr
      refine ⟨c, ?_, ?_⟩
      · exact (List.perm_insertionSort _ _).mem_iff.mpr
          (List.mem_dedup.mpr hc)
      · rw [ht]
  · have e1 : ([{ date := "d1", details := "a", amount := 10,
                  debitCredit := "Debit", category := "Food" },
                { date := "d2", details := "b", amount := 5,
                  debitCredit := "Debit", category := "Food" },
                { date := "d3", details := "c", amount := 20,
                  debitCredit := "Debit", category := "Transport" }] :
        List Transaction).map Transaction.category
        = ["Food", "Food", "Transport"] := rfl
    rw [category_totals, e1]
    have e2 : (["Food", "Food", "Transport"].dedup.insertionSort
        fun a b => strLeB a b = true) = ["Food", "Transport"] := by decide
    rw [e2]
    simp only [List.map, List.filter]
    norm_num [List.insertionSort, List.orderedInsert]

/-! ### Store operation lemmas -/

/-- Writing a key present in the dict makes it read back the written
value. -/
lemma lookupStore_updateStore_self (s : Store) (c : String)
    (kws l : List String) (h : lookupStore s c = some kws) :
    lookupStore (updateStore s c l) c = some l := by
  induction s with
  | nil => simp [lookupStore] at h
  | cons p rest ih =>
    by_cases hp : p.1 = c
    · rw [updateStore, if_pos hp, lookupStore, if_pos rfl]
    · rw [lookupStore, if_neg hp] at h
      rw [updateStore, if_neg hp, lookupStore, if_neg hp]
      exact ih h

lemma lookupStore_append_not_mem (pre : Store) (c : String)
    (kws : List String) (post : Store) (h : c ∉ pre.map Prod.fst) :
    lookupStore (pre ++ (c, kws) :: post) c = some kws := by
  induction pre with
  | nil => rw [List.nil_append, lookupStore, if_pos rfl]
  | cons p rest ih =>
    have hp : p.1 ≠ c := by
      intro he; exact h (by simp [he])
    rw [List.cons_append, lookupStore, if_neg hp]
    exact ih fun hm => h (by simp [hm])

lemma updateStore_append_not_mem (pre : Store) (c : String)
    (kws l : List String) (post : Store) (h : c ∉ pre.map Prod.fst) :
    updateStore (pre ++ (c, kws) :: post) c l = pre ++ (c, l) :: post := by
  induction pre with
  | nil => rw [List.nil_append, updateStore, if_pos rfl, List.nil_append]
  | cons p rest ih =>
    have hp : p.1 ≠ c := by
      intro he; exact h (by simp [he])
    rw [List.cons_append, updateStore, if_neg hp, List.cons_append,
      ih fun hm => h (by simp [hm])]

lemma map_fst_updateStore (s : Store) (c : String) (l : List String) :
    (updateStore s c l).map Prod.fst = s.map Prod.fst := by
  induction s with
  | nil => rfl
  | cons p rest ih =>
    by_cases hp : p.1 = c
    · rw [updateStore, if_pos hp, List.map_cons, List.map_cons, hp]
    · rw [updateStore, if_neg hp, List.map_cons, List.map_cons, ih]

/-! ### Claim C4 (corrected): add-keyword on an absent category -/

/-- C4, amended: calling `add_keywprd_to_category` with a category
absent from the store leaves the store unchanged, but it does not fail
with a typed `UnknownCategory` result: when the keyword is empty after
trimming the `and` short-circuits and the call returns `False` without
any failure at all, and otherwise the dict access raises an uncaught
`KeyError`. -/
theorem add_keyword_unknown_category (s : Store) (c k : String)
    (h : lookupStore s c = none) :
    (pyStrip k = "" → add_keywprd_to_category s c k = .ok (s, false)) ∧
    (pyStrip k ≠ "" →
      add_keywprd_to_category s c k = .error (.keyError c)) := by
  constructor
  · intro he
    simp [add_keywprd_to_category, he]
  · intro he
    simp [add_keywprd_to_category, he, h]

/-- Counterexample to C4 as stated: on the store `{"General": []}`,
adding a whitespace-only keyword to the absent category "Coffee"
returns `False` with no error of any kind, and adding a real keyword
to the absent category raises a `KeyError`, not an `UnknownCategory`
result. -/
theorem add_keyword_unknown_category_counterexample :
    add_keywprd_to_category [("General", [])] "Coffee" "   "
        = .ok ([("General", [])], false) ∧
    add_keywprd_to_category [("General", [])] "Coffee" "latte"
        = .error (.keyError "Coffee") := by
  exact ⟨rfl, rfl⟩

/-- Witness for the amended C4 at a concrete store and keyword. -/
theorem add_keyword_unknown_category_witness :
    (pyStrip "latte" = "" →
      add_keywprd_to_category [("General", [])] "Coffee" "latte"
        = .ok ([("General", [])], false)) ∧
    (pyStrip "latte" ≠ "" →
      add_keywprd_to_category [("General", [])] "Coffee" "latte"
        = .error (.keyError "Coffee")) :=
  add_keyword_unknown_category [("General", [])] "Coffee" "latte"
    (by decide)

/-! ### Claim C6: add-keyword is idempotent -/

/-- C6: for a category present in the store, calling
`add_keywprd_to_category` twice with the same arguments leaves the
store exactly as after one call; the second call is a no-op returning
`False`; and a keyword that is empty after trimming is never added. -/
theorem add_keyword_idempotent (s : Store) (c k : String)
    (kws : List String) (h : lookupStore s c = some kws) :
    ∃ (s₁ : Store) (b₁ : Bool),
      add_keywprd_to_category s c k = .ok (s₁, b₁) ∧
      add_keywprd_to_category s₁ c k = .ok (s₁, false) ∧
      (pyStrip k = "" → s₁ = s ∧ b₁ = false) := by
  by_cases he : pyStrip k = ""
  · refine ⟨s, false, ?_, ?_, fun _ => ⟨rfl, rfl⟩⟩ <;>
      simp [add_keywprd_to_category, he]
  · by_cases hin : pyStrip k ∈ kws
    · refine ⟨s, false, ?_, ?_, fun hc => absurd hc he⟩ <;>
        simp [add_keywprd_to_category, he, h, hin]
    · refine ⟨updateStore s c (kws ++ [pyStrip k]), true, ?_, ?_,
        fun hc => absurd hc he⟩
      · simp [add_keywprd_to_category, he, h, hin]
      · have h2 : lookupStore (updateStore s c (kws ++ [pyStrip k])) c
            = some (kws ++ [pyStrip k]) :=
          lookupStore_updateStore_self s c kws _ h
        simp [add_keywprd_to_category, he, h2]

/-- Witness for C6: adding " starbucks " twice to "Food" on a concrete
store adds it once (trimmed) and the second call is a no-op returning
`False`. -/
theorem add_keyword_idempotent_witness :
    ∃ (s₁ : Store) (b₁ : Bool),
      add_keywprd_to_category [("General", []), ("Food", [])] "Food"
          " starbucks " = .ok (s₁, b₁) ∧
      add_keywprd_to_category s₁ "Food" " starbucks " = .ok (s₁, false) ∧
      (pyStrip " starbucks " = "" →
        s₁ = [("General", []), ("Food", [])] ∧ b₁ = false) :=
  add_keyword_idempotent [("General", []), ("Food", [])] "Food"
    " starbucks " [] (by decide)

/-! ### Claim C5 (corrected): loading a malformed rule file -/

/-- C5, amended: the module-level load leaves the session store at the
default `{"General": []}` when the rule file is missing, replaces it
wholesale with the parsed contents when the file parses, and on a
malformed file raises the uncaught `json` parse exception — aborting
the script run with neither a silent fallback nor a `ConfigCorrupt`
value — while the in-memory store stays at the default, never
partially loaded. -/
theorem module_load_contract (file : Option (Except JsonError Store)) :
    (file = none → moduleLoad file = ⟨defaultStore, none⟩) ∧
    (∀ s : Store, file = some (.ok s) → moduleLoad file = ⟨s, none⟩) ∧
    ∀ e : JsonError, file = some (.error e) →
      moduleLoad file = ⟨defaultStore, some (.jsonDecodeError e)⟩ := by
  refine ⟨fun h => ?_, fun s h => ?_, fun e h => ?_⟩ <;> subst h <;> rfl

/-- Counterexample to C5 as stated: a malformed rule file makes the
module-level code raise an uncaught exception (the run aborts; there
is no silent fallback and no handled `ConfigCorrupt` error). -/
theorem module_load_counterexample :
    (moduleLoad (some (.error (.decodeError "unexpected token")))).raised
        = some (.jsonDecodeError (.decodeError "unexpected token")) ∧
    ∀ s : Store,
      moduleLoad (some (.error (.decodeError "unexpected token")))
        ≠ ⟨s, none⟩ := by
  refine ⟨rfl, fun s h => ?_⟩
  have := congrArg LoadResult.raised h
  simp [moduleLoad] at this

/-- Witness for the amended C5 at a concrete malformed file. -/
theorem module_load_contract_witness :
    moduleLoad (some (.error (.decodeError "bad json")))
      = ⟨defaultStore, some (.jsonDecodeError (.decodeError "bad json"))⟩ :=
  (module_load_contract (some (.error (.decodeError "bad json")))).2.2
    (.decodeError "bad json") rfl

/-! ### Reachable stores: invariants of the learning loop -/

/-- Keys are preserved by `storeAfterAdd`. -/
lemma map_fst_storeAfterAdd (s : Store) (c k : String) :
    (storeAfterAdd s c k).map Prod.fst = s.map Prod.fst := by
  rw [storeAfterAdd, add_keywprd_to_category]
  by_cases he : pyStrip k = ""
  · rw [if_pos he]
  · rw [if_neg he]
    cases hl : lookupStore s c with
    | none => rfl
    | some kws =>
      by_cases hin : pyStrip k ∈ kws
      · simp [hin]
      · simp [hin, map_fst_updateStore]

/-- In every reachable store the key "General" is present. -/
lemma general_mem_reachable (s : Store) (h : Reachable s) :
    "General" ∈ s.map Prod.fst := by
  induction h with
  | init => simp [defaultStore]
  | addCategory s name _ ih =>
    rw [addCategoryOp]
    by_cases hc : name = "" ∨ name ∈ s.map Prod.fst
    · rw [if_pos hc]; exact ih
    · rw [if_neg hc]; simp only [List.map_append]
      exact List.mem_append_left _ ih
  | learn s cat details _ _ ih =>
    rw [map_fst_storeAfterAdd]
    exact ih

/-- The keyword list stored under "General" never influences the
matcher: `categorize_transaction` skips that entry. -/
lemma categorize_ignores_general (s : Store) (kws : List String)
    (df : List Transaction) :
    categorize_transaction (updateStore s "General" kws) df
      = categorize_transaction s df := by
  have hfold : ∀ (l : Store) (d : String) (acc : String),
      (updateStore l "General" kws).foldl (stepCat d) acc
        = l.foldl (stepCat d) acc := by
    intro l
    induction l with
    | nil => intro d acc; rfl
    | cons p rest ih =>
      intro d acc
      by_cases hp : p.1 = "General"
      · rw [updateStore, if_pos hp, List.foldl_cons, List.foldl_cons]
        have h1 : stepCat d acc ("General", kws) = acc := by
          rw [stepCat, if_pos (Or.inl rfl)]
        have h2 : stepCat d acc p = acc := by
          rw [stepCat, if_pos (Or.inl hp)]
        rw [h1, h2]
      · rw [updateStore, if_neg hp, List.foldl_cons, List.foldl_cons, ih]
  rw [categorize_eq_map, categorize_eq_map]
  apply List.map_congr_left
  intro r _
  rw [assignedCategory, assignedCategory, hfold]

/-! ### Claim C8 (corrected): the reserved "General" category -/

/-- C8, amended: in every reachable rule-store state the key "General"
is present and the matcher never assigns a category by matching a
keyword stored under "General" (replacing that keyword list changes no
assignment) — but its keyword list is not always empty, because
recategorizing a row to "General" adds the row's details to it. -/
theorem general_reserved (s : Store) (h : Reachable s) :
    "General" ∈ s.map Prod.fst ∧
    ∀ (kws : List String) (df : List Transaction),
      categorize_transaction (updateStore s "General" kws) df
        = categorize_transaction s df :=
  ⟨general_mem_reachable s h, fun kws df => categorize_ignores_general s kws df⟩

/-- Witness for the amended C8 at the initial store. -/
theorem general_reserved_witness :
    "General" ∈ defaultStore.map Prod.fst ∧
    ∀ (kws : List String) (df : List Transaction),
      categorize_transaction (updateStore defaultStore "General" kws) df
        = categorize_transaction defaultStore df :=
  general_reserved defaultStore Reachable.init

/-- Counterexample to C8 as stated: the store
`{"General": ["starbucks"], "Food": ["starbucks"]}` is reachable —
add category "Food", recategorize a "starbucks" row to "Food", then
recategorize it back to "General" — and "General" has a nonempty
keyword list there. -/
theorem general_keywords_counterexample :
    Reachable [("General", ["starbucks"]), ("Food", ["starbucks"])] ∧
    lookupStore [("General", ["starbucks"]), ("Food", ["starbucks"])]
        "General" ≠ some [] := by
  constructor
  · have h0 : Reachable defaultStore := Reachable.init
    have h1 := Reachable.addCategory defaultStore "Food" h0
    have e1 : addCategoryOp defaultStore "Food"
        = [("General", []), ("Food", [])] := by decide
    rw [e1] at h1
    have h2 := Reachable.learn _ "Food" "starbucks" h1 (by decide)
    have e2 : storeAfterAdd [("General", []), ("Food", [])] "Food"
        "starbucks" = [("General", []), ("Food", ["starbucks"])] := by decide
    rw [e2] at h2
    have h3 := Reachable.learn _ "General" "starbucks" h2 (by decide)
    have e3 : storeAfterAdd [("General", []), ("Food", ["starbucks"])]
        "General" "starbucks"
        = [("General", ["starbucks"]), ("Food", ["starbucks"])] := by decide
    rw [e3] at h3
    exact h3
  · decide

/-! ### Claim C9 (corrected): stored keywords are trimmed and
duplicate-free, but not lowercased -/

/-- The part of the stored-rule invariant the code maintains: every
keyword is trimmed and each category's keyword list has no exact
duplicates. -/
def StoreClean (s : Store) : Prop :=
  ∀ p ∈ s, (∀ k ∈ p.2, pyStrip k = k) ∧ p.2.Nodup

lemma lookupStore_clean (s : Store) (c : String) (kws : List String)
    (h : StoreClean s) (hl : lookupStore s c = some kws) :
    (∀ k ∈ kws, pyStrip k = k) ∧ kws.Nodup := by
  induction s with
  | nil => simp [lookupStore] at hl
  | cons p rest ih =>
    by_cases hp : p.1 = c
    · rw [lookupStore, if_pos hp] at hl
      cases hl
      exact (h p (by simp)).imp id id |>.imp (fun a => a) (fun a => a)
    · rw [lookupStore, if_neg hp] at hl
      exact ih (fun q hq => h q (by simp [hq])) hl

lemma storeClean_updateStore (s : Store) (c : String) (l : List String)
    (h : StoreClean s) (hl : (∀ k ∈ l, pyStrip k = k) ∧ l.Nodup) :
    StoreClean (updateStore s c l) := by
  induction s with
  | nil => intro p hp; simp [updateStore] at hp
  | cons q rest ih =>
    by_cases hq : q.1 = c
    · rw [updateStore, if_pos hq]
      intro p hp
      rcases List.mem_cons.mp hp with hph | hpt
      · rw [hph]; exact hl
      · exact h p (by simp [hpt])
    · rw [updateStore, if_neg hq]
      intro p hp
      rcases List.mem_cons.mp hp with hph | hpt
      · rw [hph]; exact h q (by simp)
      · exact ih (fun r hr => h r (by simp [hr])) p hpt

/-- C9, amended: in every reachable rule-store state each stored
keyword is trimmed (whitespace-stripped) and each category's keyword
list contains no duplicates; every operation that adds keywords
preserves this. Keywords are, however, not necessarily lowercase —
lowercasing happens only inside the matcher. -/
theorem reachable_store_clean (s : Store) (h : Reachable s) :
    StoreClean s := by
  induction h with
  | init =>
    intro p hp
    rcases List.mem_singleton.mp hp with rfl
    exact ⟨by simp, List.nodup_nil⟩
  | addCategory s name _ ih =>
    rw [addCategoryOp]
    by_cases hc : name = "" ∨ name ∈ s.map Prod.fst
    · rw [if_pos hc]; exact ih
    · rw [if_neg hc]
      intro p hp
      rcases List.mem_append.mp hp with hps | hpn
      · exact ih p hps
      · rcases List.mem_singleton.mp hpn with rfl
        exact ⟨by simp, List.nodup_nil⟩
  | learn s cat details _ _ ih =>
    rw [storeAfterAdd, add_keywprd_to_category]
    by_cases he : pyStrip details = ""
    · rw [if_pos he]; exact ih
    · rw [if_neg he]
      cases hl : lookupStore s cat with
      | none => exact ih
      | some kws =>
        by_cases hin : pyStrip details ∈ kws
        · simp only [hin, if_true]; exact ih
        · simp only [hin, if_false]
          apply storeClean_updateStore s cat _ ih
          obtain ⟨htrim, hnodup⟩ := lookupStore_clean s cat kws ih hl
          constructor
          · intro k hk
            rcases List.mem_append.mp hk with hkk | hkl
            · exact htrim k hkk
            · rcases List.mem_singleton.mp hkl with rfl
              exact pyStrip_pyStrip details
          · rw [← List.concat_eq_append]
            exact List.Nodup.concat hin hnodup

/-- Witness for the amended C9: the reachable store holding the
learned keyword "STARBUCKS" under "Coffee" is clean (trimmed keywords,
no duplicates). -/
theorem reachable_store_clean_witness :
    StoreClean [("General", []), ("Coffee", ["STARBUCKS"])] := by
  apply reachable_store_clean
  have h1 := Reachable.addCategory defaultStore "Coffee" Reachable.init
  have e1 : addCategoryOp defaultStore "Coffee"
      = [("General", []), ("Coffee", [])] := by decide
  rw [e1] at h1
  have h2 := Reachable.learn _ "Coffee" " STARBUCKS " h1 (by decide)
  have e2 : storeAfterAdd [("General", []), ("Coffee", [])] "Coffee"
      " STARBUCKS " = [("General", []), ("Coffee", ["STARBUCKS"])] := by
    decide
  rw [e2] at h2
  exact h2

/-- Counterexample to C9 as stated: the learned keyword "STARBUCKS" is
stored verbatim (trimmed but not lowercased) in a reachable store, so
not every stored keyword is a lowercase string. -/
theorem stored_keyword_not_lowercase_counterexample :
    Reachable [("General", []), ("Coffee", ["STARBUCKS"])] ∧
    "STARBUCKS" ∈
      (lookupStore [("General", []), ("Coffee", ["STARBUCKS"])]
        "Coffee").getD [] ∧
    pyLower "STARBUCKS" ≠ "STARBUCKS" := by
  refine ⟨?_, by decide, by decide⟩
  have h1 := Reachable.addCategory defaultStore "Coffee" Reachable.init
  have e1 : addCategoryOp defaultStore "Coffee"
      = [("General", []), ("Coffee", [])] := by decide
  rw [e1] at h1
  have h2 := Reachable.learn _ "Coffee" " STARBUCKS " h1 (by decide)
  have e2 : storeAfterAdd [("General", []), ("Coffee", [])] "Coffee"
      " STARBUCKS " = [("General", []), ("Coffee", ["STARBUCKS"])] := by
    decide
  rw [e2] at h2
  exact h2

/-! ### Claim C3 (corrected): the learning round-trip -/

/-- C3, amended: when a transaction whose details are nonempty after
trimming is recategorized to a different category `C` present in the
store, the handler records `C` on the row and ensures the trimmed
details are among `C`'s keywords, so that afterwards
`categorize_transaction` assigns `C` to every transaction whose
normalized details equal the normalized details of the original one,
provided no category iterated after `C` matches. The hypothesis
`hgen` records a fact of every store the app builds: when the target
is "General" it is the first dict entry (the default store starts
with it and every operation preserves positions), so "no later match"
then means no match at all and the default "General" is the assigned
category. -/
theorem learning_roundtrip (pre post : Store) (kws : List String)
    (C oldCat : String) (t : Transaction)
    (hold : C ≠ oldCat)
    (hpre : C ∉ pre.map Prod.fst)
    (hgen : C = "General" → pre = [])
    (hdet : pyStrip t.details ≠ "")
    (hpost : ∀ p ∈ post,
      p.1 = "General" ∨ pyNormalize t.details ∉ p.2.map pyNormalize) :
    ∃ s' : Store,
      save_row (pre ++ (C, kws) :: post) oldCat C t.details
          = .ok (s', C) ∧
      pyStrip t.details ∈ (lookupStore s' C).getD [] ∧
      ∀ (df : List Transaction) (r : Transaction),
        r ∈ categorize_transaction s' df →
        pyNormalize r.details = pyNormalize t.details →
        r.category = C := by
  have hkweq : pyNormalize t.details = pyNormalize (pyStrip t.details) :=
    (pyNormalize_pyStrip t.details).symm
  have hlook : lookupStore (pre ++ (C, kws) :: post) C = some kws :=
    lookupStore_append_not_mem pre C kws post hpre
  have hmatch : ∀ kws' : List String, pyStrip t.details ∈ kws' →
      ∀ (df : List Transaction) (r : Transaction),
        r ∈ categorize_transaction (pre ++ (C, kws') :: post) df →
        pyNormalize r.details = pyNormalize t.details →
        r.category = C := by
    intro kws' hkw df r hr hnorm
    rw [categorize_eq_map] at hr
    obtain ⟨r0, _, rfl⟩ := List.mem_map.mp hr
    dsimp only at hnorm ⊢
    by_cases hC : C = "General"
    · subst hC
      rw [hgen rfl, List.nil_append]
      apply assignedCategory_no_match
      intro p hp
      rcases List.mem_cons.mp hp with rfl | hpt
      · exact Or.inl rfl
      · rcases hpost p hpt with h | h
        · exact Or.inl h
        · refine Or.inr ?_
          rw [hnorm]
          exact h
    · apply assignedCategory_last_match pre post C kws' r0.details hC
      · rw [hnorm, hkweq]
        exact List.mem_map_of_mem pyNormalize hkw
      · intro p hp
        rw [hnorm]
        exact hpost p hp
  by_cases hin : pyStrip t.details ∈ kws
  · refine ⟨pre ++ (C, kws) :: post, ?_, ?_, hmatch kws hin⟩
    · rw [save_row, if_neg hold]
      simp [add_keywprd_to_category, hdet, hlook, hin]
    · rw [hlook]
      exact hin
  · refine ⟨pre ++ (C, kws ++ [pyStrip t.details]) :: post, ?_, ?_,
      hmatch _ (by simp)⟩
    · rw [save_row, if_neg hold]
      have hupd : updateStore (pre ++ (C, kws) :: post) C
          (kws ++ [pyStrip t.details])
          = pre ++ (C, kws ++ [pyStrip t.details]) :: post :=
        updateStore_append_not_mem pre C kws _ post hpre
      simp [add_keywprd_to_category, hdet, hlook, hin, hupd]
    · rw [lookupStore_append_not_mem pre C _ post hpre]
      simp

/-- Witness for the amended C3: recategorizing a "STARBUCKS #123" row
from "General" to "Coffee" stores the keyword and makes the matcher
assign "Coffee" to rows with those details. -/
theorem learning_roundtrip_witness :
    ∃ s' : Store,
      save_row ([("General", [])] ++ ("Coffee", []) :: []) "General"
          "Coffee" "STARBUCKS #123" = .ok (s', "Coffee") ∧
      pyStrip "STARBUCKS #123" ∈ (lookupStore s' "Coffee").getD [] ∧
      ∀ (df : List Transaction) (r : Transaction),
        r ∈ categorize_transaction s' df →
        pyNormalize r.details = pyNormalize "STARBUCKS #123" →
        r.category = "Coffee" :=
  learning_roundtrip [("General", [])] [] [] "Coffee" "General"
    { date := "04 Jan 2024", details := "STARBUCKS #123", amount := 4,
      debitCredit := "Debit", category := "General" }
    (by decide) (by decide) (by decide) (by decide) (by decide)

/-- Counterexample to C3 as stated: recategorizing a row whose details
are whitespace-only from "General" to the present category "Coffee"
records "Coffee" on the row but adds no keyword at all (the trimmed
details are falsy), and a subsequent run assigns "General", not
"Coffee", to a transaction with identical details. -/
theorem learning_roundtrip_counterexample :
    save_row [("General", []), ("Coffee", [])] "General" "Coffee" "   "
        = .ok ([("General", []), ("Coffee", [])], "Coffee") ∧
    categorize_transaction [("General", []), ("Coffee", [])]
        [{ date := "03 Jan 2024", details := "   ", amount := 2,
           debitCredit := "Debit", category := "Coffee" }]
        = [{ date := "03 Jan 2024", details := "   ", amount := 2,
             debitCredit := "Debit", category := "General" }] :=
  ⟨rfl, rfl⟩

end FinanceApp
